import Mathlib

/-!
Verification of the TSM page/chunk format and the replicated write path of a
distributed time-series storage engine, against a shallow embedding of the
source (`tskv/src/tsm/page.rs`, `tskv/src/reader/paralle_merge.rs`,
`coordinator/src/raft/writer.rs`).
-/

namespace CnosDB

/-! ## Basic scalar model

Machine integers are modelled as `Nat`/`Int` with explicit bounds where the
source relies on a fixed width. -/

def I64_MIN : Int := -(2 ^ 63)

def I64_MAX : Int := 2 ^ 63 - 1

/-- Modelled from the spec (models::predicate::domain::TimeRange is not under
src/): a closed time span with `i64` endpoints. -/
structure TimeRange where
  min_ts : Int
  max_ts : Int
deriving DecidableEq, Repr

/-- Modelled from the spec: `TimeRange::none()` is the empty span (neutral
element of `merge`): `min_ts = i64::MAX`, `max_ts = i64::MIN`. -/
def TimeRange.noneRange : TimeRange := ⟨I64_MAX, I64_MIN⟩

/-- Modelled from the spec: `merge` is the commutative span merge
`[min(a.min, b.min), max(a.max, b.max)]`. -/
def TimeRange.merge (a b : TimeRange) : TimeRange :=
  ⟨min a.min_ts b.min_ts, max a.max_ts b.max_ts⟩

/-! ## Physical types (models::schema::PhysicalCType) -/

inductive TimeUnit where
  | ns | us | ms | s
deriving DecidableEq, Repr

inductive PhysicalDType where
  | integer | float | unsigned | boolean | string | unknown
deriving DecidableEq, Repr

inductive PhysicalCType where
  | tag
  | time (unit : TimeUnit)
  | field (dt : PhysicalDType)
deriving DecidableEq, Repr

/-- models::field_value::FieldVal. Floats are carried by their 64 bit pattern;
the claims below never compute with float values, only move them. -/
inductive FieldVal where
  | integer (v : Int)
  | unsigned (v : Nat)
  | float (bits : Nat)
  | boolean (v : Bool)
  | bytes (v : List Nat)
deriving DecidableEq, Repr

/-- models::schema::TableColumn, reduced to the fields the embedded code
reads (`column_type.to_physical_type()` is applied up front). -/
structure TableColumn where
  id : Nat
  name : String
  column_type : PhysicalCType
deriving DecidableEq, Repr

/-! ## Page (tskv/src/tsm/page.rs) -/

structure PageMeta where
  num_values : Nat
  column : TableColumn
deriving DecidableEq, Repr

/-- `Page`: the raw byte envelope plus metadata. Bytes are `Nat`s below 256. -/
structure Page where
  bytes : List Nat
  meta : PageMeta
deriving DecidableEq, Repr

/-- tskv::Error, restricted to the variants the embedded functions produce. -/
inductive Error where
  | tsmPageError (reason : String)
  | unsupportedDataType (dt : String)
  | tsmColumnGroupError (reason : String)
  | tsmPageFileHashCheckFailed (crc : Nat) (crc_calculated : Nat) (page : Page)
  | decodeError
  | deserializeError
deriving DecidableEq, Repr

/-! ## ColumnGroup (tskv/src/tsm/page.rs, lines 250-322) -/

structure PageWriteSpec where
  offset : Nat
  size : Nat
  meta : PageMeta
deriving DecidableEq, Repr

structure ColumnGroup where
  column_group_id : Nat
  pages_offset : Nat
  size : Nat
  time_range : TimeRange
  pages : List PageWriteSpec
deriving DecidableEq, Repr

def ColumnGroup.new (id : Nat) : ColumnGroup :=
  ⟨id, 0, 0, TimeRange.noneRange, []⟩

def ColumnGroup.time_range_merge (g : ColumnGroup) (tr : TimeRange) : ColumnGroup :=
  { g with time_range := g.time_range.merge tr }

/-- `ColumnGroup::push`. The source mutates in place and checks contiguity
with `debug_assert_eq!(self.pages_offset + self.size, page.offset)` (only when
`self.size != 0`, and after the `pages_offset == 0` sentinel update). The
returned `Bool` records whether that debug assertion held. -/
def ColumnGroup.push (g : ColumnGroup) (page : PageWriteSpec) : ColumnGroup × Bool :=
  let po := if g.pages_offset = 0 then page.offset else g.pages_offset
  let assertOk := if g.size ≠ 0 then decide (po + g.size = page.offset) else true
  ({ g with
      pages_offset := po
      size := g.size + page.size
      pages := g.pages ++ [page] }, assertOk)

/-- Repeated `push`; the `Bool` is the conjunction of all debug assertions. -/
def ColumnGroup.pushAll (g : ColumnGroup) : List PageWriteSpec → ColumnGroup × Bool
  | [] => (g, true)
  | p :: ps =>
    let r := g.push p
    let rest := r.1.pushAll ps
    (rest.1, r.2 && rest.2)

/-- `ColumnGroup::row_len`: `pages.first().map(|p| p.meta.num_values).unwrap_or(0)`. -/
def ColumnGroup.row_len (g : ColumnGroup) : Nat :=
  (g.pages.head?.map fun p => p.meta.num_values).getD 0

/-- Physical contiguity of a page list: every adjacent pair satisfies
`prev.offset + prev.size = next.offset`. -/
def contiguousPages : List PageWriteSpec → Bool
  | [] => true
  | [_] => true
  | a :: b :: rest => decide (a.offset + a.size = b.offset) && contiguousPages (b :: rest)

def pagesSizeSum (ps : List PageWriteSpec) : Nat :=
  (ps.map fun p => p.size).foldr (· + ·) 0

/-! ## Chunk (tskv/src/tsm/page.rs, lines 324-436)

`column_groups: BTreeMap<ColumnGroupID, Arc<ColumnGroup>>` is modelled as an
association list kept sorted by key, with `BTreeMap::get`/`insert` as sorted
lookup/insertion. -/

def cgLookup (id : Nat) : List (Nat × ColumnGroup) → Option ColumnGroup
  | [] => Option.none
  | (k, g) :: rest => if k = id then Option.some g else cgLookup id rest

def cgInsert (id : Nat) (g : ColumnGroup) : List (Nat × ColumnGroup) → List (Nat × ColumnGroup)
  | [] => [(id, g)]
  | (k, g0) :: rest =>
    if id < k then (id, g) :: (k, g0) :: rest
    else if id = k then (id, g) :: rest
    else (k, g0) :: cgInsert id g rest

structure Chunk where
  time_range : TimeRange
  table_name : String
  series_id : Nat
  next_column_group_id : Nat
  column_groups : List (Nat × ColumnGroup)
deriving DecidableEq, Repr

def Chunk.new (table_name : String) (series_id : Nat) : Chunk :=
  ⟨TimeRange.noneRange, table_name, series_id, 0, []⟩

/-- `Chunk::push` takes `&mut self` and returns `Result<()>`; the model
returns the result together with the post state. Note the source merges
`time_range` before the duplicate-id check, so an early error can leave the
chunk mutated. -/
def Chunk.push (c : Chunk) (cg : ColumnGroup) : Except Error Unit × Chunk :=
  if c.time_range.max_ts > cg.time_range.min_ts then
    (Except.error (Error.tsmColumnGroupError
      ("invalid column group time range, current max_ts: " ++ toString c.time_range.max_ts ++
        ", new min_ts: " ++ toString cg.time_range.min_ts)), c)
  else
    let c1 : Chunk := { c with time_range := c.time_range.merge cg.time_range }
    if (cgLookup cg.column_group_id c1.column_groups).isSome then
      (Except.error (Error.tsmColumnGroupError
        ("duplicate column group id: " ++ toString cg.column_group_id ++
          ", failed push pages meta to tsm_meta")), c1)
    else
      (Except.ok (),
        { c1 with column_groups := cgInsert cg.column_group_id cg c1.column_groups })

/-! ## Coordinator write path (coordinator/src/raft/writer.rs) -/

inductive CoordinatorError where
  | failoverNode (id : Nat) (error : String)
  | forwardToLeader (replica_id : Nat) (leader_vnode_id : Nat)
  | raftWriteError (msg : String)
  | tskvError (msg : String)
  | commonError (msg : String)
deriving DecidableEq, Repr

/-- models::meta_data::VnodeInfo, reduced to the fields the writer reads. -/
structure VnodeInfo where
  id : Nat
  node_id : Nat
deriving DecidableEq, Repr

/-- The follower loop of `RaftWriter::write_to_replica` (lines 83-112):
iterate `vnodes`, skipping the leader; per vnode repeat the remote call.
`some r` models an early `return` out of the loop (first success, or the
first non-`FailoverNode` error); `none` models falling through the loop. The
remote call is modelled as a function from node id to its outcome. -/
def tryFollowers (remote : Nat → Except CoordinatorError Unit) (leader_id : Nat) :
    List VnodeInfo → Option (Except CoordinatorError Unit)
  | [] => Option.none
  | v :: rest =>
    if v.node_id = leader_id then tryFollowers remote leader_id rest
    else
      match remote v.node_id with
      | Except.ok _ => Option.some (Except.ok ())
      | Except.error (CoordinatorError.failoverNode _ _) => tryFollowers remote leader_id rest
      | r => Option.some r

/-- The remote branch of `RaftWriter::write_to_replica` (lines 68-116): call
the leader; if that fails with `FailoverNode`, run the follower loop; when the
loop falls through, the function's final expression is the OUTER `result`
binding, i.e. the leader attempt's error. -/
def write_to_replica_remote (remote : Nat → Except CoordinatorError Unit)
    (leader_id : Nat) (vnodes : List VnodeInfo) : Except CoordinatorError Unit :=
  let result := remote leader_id
  match result with
  | Except.error (CoordinatorError.failoverNode i e) =>
    match tryFollowers remote leader_id vnodes with
    | Option.some r => r
    | Option.none => Except.error (CoordinatorError.failoverNode i e)
  | r => r

/-- openraft `ForwardToLeader` payload: optional leader id and leader node. -/
structure RaftLeaderNode where
  group_id : Nat
deriving DecidableEq, Repr

/-- Outcome of `raft.raw_raft().client_write(data)`: success, or an error
exposing `forward_to_leader()` (an optional hint holding optional leader id
and node) and a display message. -/
inductive ClientWriteResult where
  | ok
  | err (forward : Option (Option Nat × Option RaftLeaderNode)) (msg : String)
deriving DecidableEq, Repr

/-- `RaftWriter::write_to_raft` (lines 244-263). `(*leader_id) as u32` is the
`u64 → u32` truncating cast, i.e. `leader_id % 2^32`. -/
def write_to_raft (res : ClientWriteResult) : Except CoordinatorError Unit :=
  match res with
  | ClientWriteResult.ok => Except.ok ()
  | ClientWriteResult.err forward msg =>
    match forward with
    | Option.some (Option.some leader_id, Option.some leader_node) =>
      Except.error (CoordinatorError.forwardToLeader leader_node.group_id (leader_id % 2 ^ 32))
    | _ => Except.error (CoordinatorError.raftWriteError msg)

/-! ## Page decode (tskv/src/tsm/page.rs, `Page::to_column`, lines 87-205)

The null bitmap (`utils::bitset::ImmutBitSet`, not under src/) is modelled
from the spec as its sequence of bits; `bitset.len()` is the list length and
`bitset.get(i)` is the `i`-th element. The per-type codec (`tsm::codec`, not
under src/) is abstracted: the decoded payload is passed in as the list of
`FieldVal`s the codec produced. The target `Column` (`tsm::writer::Column`,
not under src/) is modelled from the spec as the list of its optional values;
`push` appends. -/

/-- The interleaving loop shared by every branch of `Page::to_column`: for
each bit position, push the next decoded value if the bit is set, else push
`Null`; error when the decoded payload is exhausted at a set bit. -/
def fillColumn : List Bool → List FieldVal → Except Error (List (Option FieldVal))
  | [], _ => Except.ok []
  | b :: bs, vals =>
    if b then
      match vals with
      | [] => Except.error (Error.tsmPageError "data buffer not enough")
      | v :: vs => (fillColumn bs vs).map fun col => Option.some v :: col
    else
      (fillColumn bs vals).map fun col => Option.none :: col

/-- `Page::to_column`, with the codec output abstracted as `decoded`:
`Tag` and `Unknown` are rejected; every other physical type runs the
interleaving loop over the null bitmap. -/
def toColumn (col_type : PhysicalCType) (bits : List Bool) (decoded : List FieldVal) :
    Except Error (List (Option FieldVal)) :=
  match col_type with
  | PhysicalCType.tag => Except.error (Error.tsmPageError "tag column not support now")
  | PhysicalCType.time _ => fillColumn bits decoded
  | PhysicalCType.field PhysicalDType.unknown => Except.error (Error.unsupportedDataType "unknown")
  | PhysicalCType.field _ => fillColumn bits decoded

def popcount (bits : List Bool) : Nat := (bits.filter id).length

/-- Rank: number of set bits strictly before position `i`. -/
def bitRank (bits : List Bool) (i : Nat) : Nat := popcount (bits.take i)

/-! ## CRC validation (tskv/src/tsm/page.rs, `Page::crc_validation`, lines 52-69)

`crc32fast` computes the standard CRC-32 (IEEE): reflected, polynomial
`0xEDB88320`, initial value and final xor `0xFFFFFFFF`. -/

def crc32Poly : Nat := 0xEDB88320

def crc32Round (c : Nat) : Nat :=
  if c % 2 = 1 then (c / 2) ^^^ crc32Poly else c / 2

def crc32Byte (crc byte : Nat) : Nat :=
  crc32Round (crc32Round (crc32Round (crc32Round
    (crc32Round (crc32Round (crc32Round (crc32Round (crc ^^^ byte % 256))))))))

def crc32 (bytes : List Nat) : Nat :=
  (bytes.foldl crc32Byte 0xFFFFFFFF) ^^^ 0xFFFFFFFF

/-- `byte_utils::decode_be_u32` on a 4-byte slice: big-endian. -/
def decode_be_u32 (bs : List Nat) : Nat := bs.foldl (fun a b => a * 256 + b) 0

/-- `Page::crc_validation`: the stored CRC sits at `bytes[12..16]`
(big-endian), the bitmap length at `bytes[0..4]`; the recomputation covers
`bytes[16 + bitset_len ..]`. -/
def Page.crc_validation (p : Page) : Except Error Page :=
  let data_crc := decode_be_u32 ((p.bytes.drop 12).take 4)
  let bitset_len := decode_be_u32 (p.bytes.take 4)
  let data_crc_calculated := crc32 (p.bytes.drop (16 + bitset_len))
  if data_crc ≠ data_crc_calculated then
    Except.error (Error.tsmPageFileHashCheckFailed data_crc data_crc_calculated p)
  else
    Except.ok p

/-! ## Parallel merge with limit (tskv/src/reader/paralle_merge.rs)

`SchemableParallelMergeStream::poll_next` passes each `Ok` batch of the inner
merged stream through `limit_record_batch(self.remain.as_mut(), batch)` and
forwards every other item unchanged. A record batch is modelled by its row
count; the inner merged stream by the list of its items in emission order. -/

/-- Modelled from the spec (models::datafusion::limit_record_batch is not
under src/): an optional global row limit that decrements monotonically; with
no limit the batch passes through; with the allowance exhausted the batch is
dropped and the stream ends; an oversized batch is truncated to the
allowance. Returns the updated allowance and the emitted batch, if any. -/
def limit_record_batch (remain : Option Nat) (rows : Nat) : Option Nat × Option Nat :=
  match remain with
  | Option.none => (Option.none, Option.some rows)
  | Option.some r =>
    if r = 0 then (Option.some 0, Option.none)
    else if rows ≤ r then (Option.some (r - rows), Option.some rows)
    else (Option.some 0, Option.some r)

/-- The output sequence of `SchemableParallelMergeStream`: errors pass
through, `Ok` batches go through `limit_record_batch`; when the latter yields
no batch the stream returns `None` and ends. -/
def mergedRun (remain : Option Nat) : List (Except String Nat) → List (Except String Nat)
  | [] => []
  | Except.error e :: rest => Except.error e :: mergedRun remain rest
  | Except.ok rows :: rest =>
    match limit_record_batch remain rows with
    | (_, Option.none) => []
    | (r2, Option.some out) => Except.ok out :: mergedRun r2 rest

/-- Total rows yielded by a stream output sequence. -/
def okRows : List (Except String Nat) → Nat
  | [] => 0
  | Except.error _ :: rest => okRows rest
  | Except.ok rows :: rest => rows + okRows rest

/-! ## Footer (tskv/src/tsm/page.rs, lines 623-736)

`Footer::serialize`/`deserialize` delegate to `bincode` (not under src/).
Modelled from the spec: a stable binary encoding that must round-trip —
bincode 1.x legacy format: fields in declaration order, fixed-width
little-endian integers (`u8` 1 byte; `i64`/`u64`/`usize` 8 bytes, `i64` in
two's complement), `Vec<u8>` as a `u64` length prefix followed by the raw
bytes. `utils::BloomFilter` (not under src/) is modelled by its byte vector. -/

structure TableMeta where
  chunk_group_offset : Nat
  chunk_group_size : Nat
deriving DecidableEq, Repr

structure SeriesMeta where
  bloom_filter : List Nat
  chunk_offset : Nat
  chunk_size : Nat
deriving DecidableEq, Repr

structure Footer where
  version : Nat
  time_range : TimeRange
  table : TableMeta
  series : SeriesMeta
deriving DecidableEq, Repr

/-- `k` little-endian bytes of `n`. -/
def natToLE : Nat → Nat → List Nat
  | 0, _ => []
  | k + 1, n => n % 256 :: natToLE k (n / 256)

def leToNat : List Nat → Nat
  | [] => 0
  | b :: bs => b + 256 * leToNat bs

/-- Two's-complement encoding of an `i64` as 8 little-endian bytes. -/
def encodeI64 (i : Int) : List Nat := natToLE 8 ((i % (2 : Int) ^ 64).toNat)

/-- Read an `i64` back from its unsigned 64-bit representation. -/
def decodeI64 (n : Nat) : Int := if n < 2 ^ 63 then (n : Int) else (n : Int) - 2 ^ 64

def Footer.serialize (f : Footer) : List Nat :=
  natToLE 1 f.version ++
  encodeI64 f.time_range.min_ts ++ encodeI64 f.time_range.max_ts ++
  natToLE 8 f.table.chunk_group_offset ++ natToLE 8 f.table.chunk_group_size ++
  natToLE 8 f.series.bloom_filter.length ++ f.series.bloom_filter ++
  natToLE 8 f.series.chunk_offset ++ natToLE 8 f.series.chunk_size

/-- Take `k` bytes off the front of the input, failing on truncation. -/
def readBytes (k : Nat) (bs : List Nat) : Option (List Nat × List Nat) :=
  if k ≤ bs.length then Option.some (bs.take k, bs.drop k) else Option.none

def parseFooter (bs : List Nat) : Option (Footer × List Nat) := do
  let (vb, bs) ← readBytes 1 bs
  let (minb, bs) ← readBytes 8 bs
  let (maxb, bs) ← readBytes 8 bs
  let (cgo, bs) ← readBytes 8 bs
  let (cgs, bs) ← readBytes 8 bs
  let (blen, bs) ← readBytes 8 bs
  let (bf, bs) ← readBytes (leToNat blen) bs
  let (co, bs) ← readBytes 8 bs
  let (cs, bs) ← readBytes 8 bs
  pure (⟨leToNat vb,
         ⟨decodeI64 (leToNat minb), decodeI64 (leToNat maxb)⟩,
         ⟨leToNat cgo, leToNat cgs⟩,
         ⟨bf, leToNat co, leToNat cs⟩⟩, bs)

def Footer.deserialize (bs : List Nat) : Except Error Footer :=
  match parseFooter bs with
  | Option.some (f, _) => Except.ok f
  | Option.none => Except.error Error.deserializeError

instance [DecidableEq ε] [DecidableEq α] : DecidableEq (Except ε α) := fun x y =>
  match x, y with
  | Except.ok a, Except.ok b =>
    if h : a = b then Decidable.isTrue (congrArg Except.ok h)
    else Decidable.isFalse fun hh => h (Except.ok.inj hh)
  | Except.error a, Except.error b =>
    if h : a = b then Decidable.isTrue (congrArg Except.error h)
    else Decidable.isFalse fun hh => h (Except.error.inj hh)
  | Except.ok _, Except.error _ => Decidable.isFalse fun hh => Except.noConfusion hh
  | Except.error _, Except.ok _ => Decidable.isFalse fun hh => Except.noConfusion hh

/-- Count of non-null entries of a decoded column. -/
def someCount (col : List (Option FieldVal)) : Nat :=
  (col.filter fun o => o.isSome).length

/-- Physical types accepted by `Page::to_column` (everything except `Tag`
and `Field(Unknown)`). -/
def decodableCType : PhysicalCType → Bool
  | PhysicalCType.tag => false
  | PhysicalCType.field PhysicalDType.unknown => false
  | _ => true

/-! # Theorems -/

/-- C10: for every column group `g` containing no pages, `ColumnGroup::row_len(g)`
returns 0 (it does not fail); for every non-empty `g` it returns the first
page's `num_values`. -/
theorem c10_row_len (g : ColumnGroup) :
    (g.pages = [] → g.row_len = 0) ∧
    (∀ p rest, g.pages = p :: rest → g.row_len = p.meta.num_values) := by
  constructor
  · intro h
    simp [ColumnGroup.row_len, h]
  · intro p rest h
    simp [ColumnGroup.row_len, h]

theorem c10_witness :
    (ColumnGroup.new 3).row_len = 0 ∧
    (ColumnGroup.mk 5 10 4 ⟨0, 1⟩
      [⟨10, 4, ⟨7, ⟨1, "t", PhysicalCType.time TimeUnit.ns⟩⟩⟩]).row_len = 7 :=
  ⟨(c10_row_len (ColumnGroup.new 3)).1 rfl,
   (c10_row_len _).2 ⟨10, 4, ⟨7, ⟨1, "t", PhysicalCType.time TimeUnit.ns⟩⟩⟩ [] rfl⟩

/-- C8: for every proposal through `RaftWriter::write_to_raft` that the
consensus layer rejects: a forward-to-leader hint with both leader id and
leader node known yields `ForwardToLeader` with `replica_id =
leader_node.group_id` and `leader_vnode_id = leader_id as u32`; any other
consensus error yields `RaftWriteError` with the error message; consensus
success yields `Ok`. -/
theorem c8_write_to_raft :
    (∀ (lid : Nat) (lnode : RaftLeaderNode) (msg : String),
      write_to_raft (ClientWriteResult.err
          (Option.some (Option.some lid, Option.some lnode)) msg) =
        Except.error (CoordinatorError.forwardToLeader lnode.group_id (lid % 2 ^ 32))) ∧
    (∀ (forward : Option (Option Nat × Option RaftLeaderNode)) (msg : String),
      (∀ lid lnode, forward ≠ Option.some (Option.some lid, Option.some lnode)) →
      write_to_raft (ClientWriteResult.err forward msg) =
        Except.error (CoordinatorError.raftWriteError msg)) ∧
    write_to_raft ClientWriteResult.ok = Except.ok () := by
  refine ⟨fun lid lnode msg => rfl, ?_, rfl⟩
  intro forward msg h
  match forward with
  | Option.none => rfl
  | Option.some (Option.none, Option.none) => rfl
  | Option.some (Option.none, Option.some _) => rfl
  | Option.some (Option.some _, Option.none) => rfl
  | Option.some (Option.some lid, Option.some lnode) => exact absurd rfl (h lid lnode)

theorem c8_witness :
    write_to_raft (ClientWriteResult.err
        (Option.some (Option.some 7, Option.some ⟨10⟩)) "m") =
      Except.error (CoordinatorError.forwardToLeader 10 7) ∧
    write_to_raft (ClientWriteResult.err Option.none "boom") =
      Except.error (CoordinatorError.raftWriteError "boom") ∧
    write_to_raft ClientWriteResult.ok = Except.ok () :=
  ⟨c8_write_to_raft.1 7 ⟨10⟩ "m",
   c8_write_to_raft.2.1 Option.none "boom" (fun lid lnode => by simp),
   c8_write_to_raft.2.2⟩

/-- C4: `Page::crc_validation(p)` recomputes CRC32 over
`bytes[16 + bitset_len ..]`, returns `Ok` with the page unchanged exactly
when the recomputed value equals the CRC stored at `bytes[12..16]`, and
otherwise returns `PageHashCheckFailed` carrying the stored and computed CRCs
together with the page body. -/
theorem c4_crc_validation (p : Page)
    (hlen : 16 + decode_be_u32 (p.bytes.take 4) ≤ p.bytes.length) :
    (p.crc_validation = Except.ok p ↔
      decode_be_u32 ((p.bytes.drop 12).take 4) =
        crc32 (p.bytes.drop (16 + decode_be_u32 (p.bytes.take 4)))) ∧
    (decode_be_u32 ((p.bytes.drop 12).take 4) ≠
        crc32 (p.bytes.drop (16 + decode_be_u32 (p.bytes.take 4))) →
      p.crc_validation = Except.error (Error.tsmPageFileHashCheckFailed
        (decode_be_u32 ((p.bytes.drop 12).take 4))
        (crc32 (p.bytes.drop (16 + decode_be_u32 (p.bytes.take 4)))) p)) := by
  unfold Page.crc_validation
  by_cases h : decode_be_u32 ((p.bytes.drop 12).take 4) =
      crc32 (p.bytes.drop (16 + decode_be_u32 (p.bytes.take 4)))
  · simp [h]
  · simp [h]

/-- The interleaving loop fails with the short-buffer error whenever the
bitmap has more set bits than there are decoded values. -/
theorem fillColumn_short (bits : List Bool) (vals : List FieldVal)
    (h : vals.length < popcount bits) :
    fillColumn bits vals = Except.error (Error.tsmPageError "data buffer not enough") := by
  induction bits generalizing vals with
  | nil => simp [popcount] at h
  | cons b bs ih =>
    cases b with
    | true =>
      cases vals with
      | nil => rfl
      | cons v vs =>
        have hrec : vs.length < popcount bs := by
          simp [popcount, List.filter] at h ⊢
          omega
        simp [fillColumn, ih vs hrec, Except.map]
    | false =>
      have hrec : vals.length < popcount bs := by
        simp [popcount, List.filter] at h ⊢
        omega
      simp [fillColumn, ih vals hrec, Except.map]

/-- C9: for every page whose bitmap has more set bits than the payload
decodes values, `Page::to_column` returns `TsmPageError` with reason
"data buffer not enough" rather than a column (for every decodable physical
type). -/
theorem c9_short_buffer (ct : PhysicalCType) (bits : List Bool) (decoded : List FieldVal)
    (hct : decodableCType ct = true) (h : decoded.length < popcount bits) :
    toColumn ct bits decoded = Except.error (Error.tsmPageError "data buffer not enough") := by
  match ct with
  | PhysicalCType.tag => exact absurd hct (by simp [decodableCType])
  | PhysicalCType.time u => exact fillColumn_short bits decoded h
  | PhysicalCType.field PhysicalDType.integer => exact fillColumn_short bits decoded h
  | PhysicalCType.field PhysicalDType.float => exact fillColumn_short bits decoded h
  | PhysicalCType.field PhysicalDType.unsigned => exact fillColumn_short bits decoded h
  | PhysicalCType.field PhysicalDType.boolean => exact fillColumn_short bits decoded h
  | PhysicalCType.field PhysicalDType.string => exact fillColumn_short bits decoded h
  | PhysicalCType.field PhysicalDType.unknown => exact absurd hct (by simp [decodableCType])

theorem c9_witness :
    decodableCType (PhysicalCType.field PhysicalDType.integer) = true ∧
    ([FieldVal.integer 1, FieldVal.integer 2, FieldVal.integer 3,
      FieldVal.integer 4] : List FieldVal).length <
      popcount [true, true, true, true, true] ∧
    toColumn (PhysicalCType.field PhysicalDType.integer)
        [true, true, true, true, true]
        [FieldVal.integer 1, FieldVal.integer 2, FieldVal.integer 3, FieldVal.integer 4] =
      Except.error (Error.tsmPageError "data buffer not enough") :=
  ⟨by decide, by decide,
   c9_short_buffer (PhysicalCType.field PhysicalDType.integer)
     [true, true, true, true, true]
     [FieldVal.integer 1, FieldVal.integer 2, FieldVal.integer 3, FieldVal.integer 4]
     (by decide) (by decide)⟩

theorem fillColumn_length (bits : List Bool) (vals : List FieldVal)
    (col : List (Option FieldVal)) (h : fillColumn bits vals = Except.ok col) :
    col.length = bits.length := by
  induction bits generalizing vals col with
  | nil =>
    simp [fillColumn] at h
    simp [← h]
  | cons b bs ih =>
    cases b with
    | true =>
      cases vals with
      | nil => simp [fillColumn] at h
      | cons v vs =>
        simp only [fillColumn, Except.map] at h
        cases hrec : fillColumn bs vs with
        | error e => rw [hrec] at h; simp at h
        | ok col2 =>
          rw [hrec] at h
          simp at h
          subst h
          simp [ih vs col2 hrec]
    | false =>
      simp only [fillColumn, Except.map] at h
      cases hrec : fillColumn bs vals with
      | error e => rw [hrec] at h; simp at h
      | ok col2 =>
        rw [hrec] at h
        simp at h
        subst h
        simp [ih vals col2 hrec]

theorem fillColumn_someCount (bits : List Bool) (vals : List FieldVal)
    (col : List (Option FieldVal)) (h : fillColumn bits vals = Except.ok col) :
    someCount col = popcount bits := by
  induction bits generalizing vals col with
  | nil =>
    simp [fillColumn] at h
    subst h
    simp [someCount, popcount]
  | cons b bs ih =>
    cases b with
    | true =>
      cases vals with
      | nil => simp [fillColumn] at h
      | cons v vs =>
        simp only [fillColumn, Except.map] at h
        cases hrec : fillColumn bs vs with
        | error e => rw [hrec] at h; simp at h
        | ok col2 =>
          rw [hrec] at h
          simp at h
          subst h
          simp [someCount, popcount, List.filter] at ih ⊢
          exact ih vs col2 hrec
    | false =>
      simp only [fillColumn, Except.map] at h
      cases hrec : fillColumn bs vals with
      | error e => rw [hrec] at h; simp at h
      | ok col2 =>
        rw [hrec] at h
        simp at h
        subst h
        simp [someCount, popcount, List.filter] at ih ⊢
        exact ih vals col2 hrec

theorem fillColumn_index (bits : List Bool) (vals : List FieldVal)
    (col : List (Option FieldVal)) (h : fillColumn bits vals = Except.ok col) (i : Nat) :
    (bits[i]? = Option.some true →
      ∃ v, vals[bitRank bits i]? = Option.some v ∧ col[i]? = Option.some (Option.some v)) ∧
    (bits[i]? = Option.some false → col[i]? = Option.some Option.none) := by
  induction bits generalizing vals col i with
  | nil => simp
  | cons b bs ih =>
    cases b with
    | true =>
      cases vals with
      | nil => simp [fillColumn] at h
      | cons v vs =>
        simp only [fillColumn, Except.map] at h
        cases hrec : fillColumn bs vs with
        | error e => rw [hrec] at h; simp at h
        | ok col2 =>
          rw [hrec] at h
          simp at h
          subst h
          cases i with
          | zero => simp [bitRank, popcount]
          | succ j =>
            have hr : bitRank (true :: bs) (j + 1) = bitRank bs j + 1 := by
              simp [bitRank, popcount, List.take_succ_cons, List.filter]
            simp only [List.getElem?_cons_succ, hr]
            exact ih vs col2 hrec j
    | false =>
      simp only [fillColumn, Except.map] at h
      cases hrec : fillColumn bs vals with
      | error e => rw [hrec] at h; simp at h
      | ok col2 =>
        rw [hrec] at h
        simp at h
        subst h
        cases i with
        | zero => simp
        | succ j =>
          have hr : bitRank (false :: bs) (j + 1) = bitRank bs j := by
            simp [bitRank, popcount, List.take_succ_cons, List.filter]
          simp only [List.getElem?_cons_succ, hr]
          exact ih vals col2 hrec j

/-- Extract the interleaving loop from a successful `to_column`. -/
theorem toColumn_ok_fill (ct : PhysicalCType) (bits : List Bool) (decoded : List FieldVal)
    (col : List (Option FieldVal)) (h : toColumn ct bits decoded = Except.ok col) :
    fillColumn bits decoded = Except.ok col := by
  match ct with
  | PhysicalCType.tag => simp [toColumn] at h
  | PhysicalCType.time u => exact h
  | PhysicalCType.field PhysicalDType.integer => exact h
  | PhysicalCType.field PhysicalDType.float => exact h
  | PhysicalCType.field PhysicalDType.unsigned => exact h
  | PhysicalCType.field PhysicalDType.boolean => exact h
  | PhysicalCType.field PhysicalDType.string => exact h
  | PhysicalCType.field PhysicalDType.unknown => simp [toColumn] at h

/-- C3: for every page whose decode succeeds, `Page::to_column` returns a
column of length `num_values` (`num_values = bitset.len()` is the page
invariant) in which, for each bit position of the null bitmap, the next
decoded payload value appears if the bit is set and `Null` appears otherwise;
consequently the count of `Some` values equals the popcount of the bitmap. -/
theorem c3_to_column (ct : PhysicalCType) (bits : List Bool) (decoded : List FieldVal)
    (col : List (Option FieldVal)) (num_values : Nat)
    (hok : toColumn ct bits decoded = Except.ok col)
    (hnv : num_values = bits.length) :
    col.length = num_values ∧
    someCount col = popcount bits ∧
    (∀ i, (bits[i]? = Option.some true →
        ∃ v, decoded[bitRank bits i]? = Option.some v ∧
          col[i]? = Option.some (Option.some v)) ∧
      (bits[i]? = Option.some false → col[i]? = Option.some Option.none)) := by
  have hfill := toColumn_ok_fill ct bits decoded col hok
  exact ⟨hnv ▸ fillColumn_length bits decoded col hfill,
    fillColumn_someCount bits decoded col hfill,
    fun i => fillColumn_index bits decoded col hfill i⟩

theorem c3_witness :
    toColumn (PhysicalCType.field PhysicalDType.integer) [true, false, true]
        [FieldVal.integer 1, FieldVal.integer 2] =
      Except.ok [Option.some (FieldVal.integer 1), Option.none,
        Option.some (FieldVal.integer 2)] ∧
    (([Option.some (FieldVal.integer 1), Option.none,
        Option.some (FieldVal.integer 2)] : List (Option FieldVal)).length = 3 ∧
      someCount [Option.some (FieldVal.integer 1), Option.none,
        Option.some (FieldVal.integer 2)] = popcount [true, false, true] ∧
      (∀ i, (([true, false, true] : List Bool)[i]? = Option.some true →
          ∃ v, ([FieldVal.integer 1, FieldVal.integer 2] :
              List FieldVal)[bitRank [true, false, true] i]? = Option.some v ∧
            ([Option.some (FieldVal.integer 1), Option.none,
              Option.some (FieldVal.integer 2)] :
                List (Option FieldVal))[i]? = Option.some (Option.some v)) ∧
        (([true, false, true] : List Bool)[i]? = Option.some false →
          ([Option.some (FieldVal.integer 1), Option.none,
            Option.some (FieldVal.integer 2)] :
              List (Option FieldVal))[i]? = Option.some Option.none))) :=
  ⟨by decide,
   c3_to_column (PhysicalCType.field PhysicalDType.integer) [true, false, true]
     [FieldVal.integer 1, FieldVal.integer 2]
     [Option.some (FieldVal.integer 1), Option.none, Option.some (FieldVal.integer 2)]
     3 (by decide) (by decide)⟩

theorem c4_witness :
    16 + decode_be_u32 (([0, 0, 0, 0, 0, 0, 0, 0, 0, 0, 0, 0, 0, 0, 0, 0] : List Nat).take 4) ≤
      ([0, 0, 0, 0, 0, 0, 0, 0, 0, 0, 0, 0, 0, 0, 0, 0] : List Nat).length ∧
    Page.crc_validation ⟨[0, 0, 0, 0, 0, 0, 0, 0, 0, 0, 0, 0, 0, 0, 0, 0],
        ⟨0, ⟨1, "f", PhysicalCType.field PhysicalDType.integer⟩⟩⟩ =
      Except.ok ⟨[0, 0, 0, 0, 0, 0, 0, 0, 0, 0, 0, 0, 0, 0, 0, 0],
        ⟨0, ⟨1, "f", PhysicalCType.field PhysicalDType.integer⟩⟩⟩ :=
  ⟨by decide,
   (c4_crc_validation _ (by decide)).1.mpr (by decide)⟩

/-- Once the allowance is exhausted, no further rows are yielded. -/
theorem mergedRun_zero (items : List (Except String Nat)) :
    okRows (mergedRun (Option.some 0) items) = 0 := by
  induction items with
  | nil => rfl
  | cons item rest ih =>
    cases item with
    | error e => simp [mergedRun, okRows, ih]
    | ok rows => simp [mergedRun, limit_record_batch, okRows]

/-- C5: for every `ParallelMergeAdapter` constructed with `limit = Some L`,
the merged stream produced by `process()` yields at most `L` rows in total
across all record batches, the remaining allowance decreases monotonically as
batches are emitted, and once the allowance is exhausted the stream ends (no
further rows; the next `Ok` batch terminates it). -/
theorem c5_limit (L : Nat) (items : List (Except String Nat)) :
    okRows (mergedRun (Option.some L) items) ≤ L ∧
    (∀ (r b r2 : Nat) (out : Option Nat),
      limit_record_batch (Option.some r) b = (Option.some r2, out) → r2 ≤ r) ∧
    (∀ (b : Nat) (rest : List (Except String Nat)),
      mergedRun (Option.some 0) (Except.ok b :: rest) = []) ∧
    okRows (mergedRun (Option.some 0) items) = 0 := by
  refine ⟨?_, ?_, ?_, mergedRun_zero items⟩
  · induction items generalizing L with
    | nil => simp [mergedRun, okRows]
    | cons item rest ih =>
      cases item with
      | error e => simpa [mergedRun, okRows] using ih L
      | ok rows =>
        by_cases h0 : L = 0
        · subst h0
          simp [mergedRun, limit_record_batch, okRows]
        · by_cases hle : rows ≤ L
          · have := ih (L - rows)
            simp [mergedRun, limit_record_batch, h0, hle, okRows]
            omega
          · simp [mergedRun, limit_record_batch, h0, hle, okRows, mergedRun_zero rest]
  · intro r b r2 out h
    unfold limit_record_batch at h
    by_cases h0 : r = 0
    · simp [h0] at h
      omega
    · by_cases hle : b ≤ r
      · simp [h0, hle] at h
        omega
      · simp [h0, hle] at h
        omega
  · intro b rest
    rfl

theorem c5_witness :
    okRows (mergedRun (Option.some 25) [Except.ok 10, Except.ok 10, Except.ok 10]) ≤ 25 ∧
    (0 : Nat) ≤ 5 ∧
    mergedRun (Option.some 0) [Except.ok 10] = [] :=
  ⟨(c5_limit 25 [Except.ok 10, Except.ok 10, Except.ok 10]).1,
   (c5_limit 25 [Except.ok 10, Except.ok 10, Except.ok 10]).2.1 5 10 0
     (Option.some 5) (by decide),
   (c5_limit 25 [Except.ok 10, Except.ok 10, Except.ok 10]).2.2.1 10 []⟩

theorem length_natToLE (k n : Nat) : (natToLE k n).length = k := by
  induction k generalizing n with
  | zero => rfl
  | succ j ih => simp [natToLE, ih]

theorem leToNat_natToLE (k n : Nat) (h : n < 256 ^ k) : leToNat (natToLE k n) = n := by
  induction k generalizing n with
  | zero =>
    simp [natToLE, leToNat]
    omega
  | succ j ih =>
    have hdiv : n / 256 < 256 ^ j := by
      rw [Nat.div_lt_iff_lt_mul (by norm_num : 0 < 256)]
      calc n < 256 ^ (j + 1) := h
        _ = 256 ^ j * 256 := by ring
    simp [natToLE, leToNat, ih (n / 256) hdiv]
    omega

theorem readBytes_append (bs rest : List Nat) (k : Nat) (h : bs.length = k) :
    readBytes k (bs ++ rest) = Option.some (bs, rest) := by
  subst h
  unfold readBytes
  rw [if_pos (by simp)]
  simp [List.take_left, List.drop_left]

theorem readBytes_exact (bs : List Nat) (k : Nat) (h : bs.length = k) :
    readBytes k bs = Option.some (bs, []) := by
  subst h
  unfold readBytes
  rw [if_pos le_rfl]
  simp

theorem length_encodeI64 (i : Int) : (encodeI64 i).length = 8 :=
  length_natToLE 8 _

theorem decodeI64_encodeI64 (i : Int) (h1 : I64_MIN ≤ i) (h2 : i ≤ I64_MAX) :
    decodeI64 (leToNat (encodeI64 i)) = i := by
  simp only [I64_MIN, I64_MAX] at h1 h2
  have h0 : (0 : Int) ≤ i % 2 ^ 64 := Int.emod_nonneg i (by norm_num)
  have h3 : i % 2 ^ 64 < 2 ^ 64 := Int.emod_lt_of_pos i (by norm_num)
  have hm : (i % (2 : Int) ^ 64).toNat < 256 ^ 8 := by
    have : (256 : Nat) ^ 8 = 2 ^ 64 := by norm_num
    omega
  unfold encodeI64
  rw [leToNat_natToLE 8 _ hm]
  have hcase : i % 2 ^ 64 = if 0 ≤ i then i else i + 2 ^ 64 := by
    by_cases hs : 0 ≤ i
    · simp [hs]
      omega
    · simp [hs]
      omega
  unfold decodeI64
  by_cases hs : 0 ≤ i
  · simp [hs] at hcase
    rw [if_pos (by omega)]
    omega
  · simp [hs] at hcase
    rw [if_neg (by omega)]
    omega

/-- C6: for every footer value `f` (with fields in their machine-integer
ranges), `Footer::deserialize(Footer::serialize(f))` succeeds and returns a
footer equal to `f`. -/
theorem c6_footer_roundtrip (f : Footer)
    (hv : f.version < 256)
    (hmin1 : I64_MIN ≤ f.time_range.min_ts) (hmin2 : f.time_range.min_ts ≤ I64_MAX)
    (hmax1 : I64_MIN ≤ f.time_range.max_ts) (hmax2 : f.time_range.max_ts ≤ I64_MAX)
    (ho1 : f.table.chunk_group_offset < 2 ^ 64) (ho2 : f.table.chunk_group_size < 2 ^ 64)
    (hb : f.series.bloom_filter.length < 2 ^ 64)
    (hc1 : f.series.chunk_offset < 2 ^ 64) (hc2 : f.series.chunk_size < 2 ^ 64) :
    Footer.deserialize f.serialize = Except.ok f := by
  have h256 : (256 : Nat) ^ 8 = 2 ^ 64 := by norm_num
  have hp : parseFooter f.serialize = Option.some (f, []) := by
    unfold parseFooter Footer.serialize
    simp only [List.append_assoc]
    rw [readBytes_append _ _ _ (length_natToLE 1 _)]
    simp only [Option.bind_eq_bind, Option.some_bind]
    rw [readBytes_append _ _ _ (length_encodeI64 _)]
    simp only [Option.bind_eq_bind, Option.some_bind]
    rw [readBytes_append _ _ _ (length_encodeI64 _)]
    simp only [Option.bind_eq_bind, Option.some_bind]
    rw [readBytes_append _ _ _ (length_natToLE 8 _)]
    simp only [Option.bind_eq_bind, Option.some_bind]
    rw [readBytes_append _ _ _ (length_natToLE 8 _)]
    simp only [Option.bind_eq_bind, Option.some_bind]
    rw [readBytes_append _ _ _ (length_natToLE 8 _)]
    simp only [Option.bind_eq_bind, Option.some_bind]
    rw [leToNat_natToLE 8 _ (h256 ▸ hb)]
    rw [readBytes_append _ _ _ rfl]
    simp only [Option.bind_eq_bind, Option.some_bind]
    rw [readBytes_append _ _ _ (length_natToLE 8 _)]
    simp only [Option.bind_eq_bind, Option.some_bind]
    rw [readBytes_exact _ _ (length_natToLE 8 _)]
    simp only [Option.bind_eq_bind, Option.some_bind]
    rw [leToNat_natToLE 1 _ (by simpa using hv),
      decodeI64_encodeI64 _ hmin1 hmin2, decodeI64_encodeI64 _ hmax1 hmax2,
      leToNat_natToLE 8 _ (h256 ▸ ho1), leToNat_natToLE 8 _ (h256 ▸ ho2),
      leToNat_natToLE 8 _ (h256 ▸ hc1), leToNat_natToLE 8 _ (h256 ▸ hc2)]
    rfl
  rw [Footer.deserialize, hp]

theorem c6_witness :
    (1 : Nat) < 256 ∧
    Footer.deserialize (Footer.serialize ⟨1, ⟨0, 100⟩, ⟨100, 100⟩, ⟨[7, 8, 9], 100, 100⟩⟩) =
      Except.ok ⟨1, ⟨0, 100⟩, ⟨100, 100⟩, ⟨[7, 8, 9], 100, 100⟩⟩ :=
  ⟨by decide,
   c6_footer_roundtrip ⟨1, ⟨0, 100⟩, ⟨100, 100⟩, ⟨[7, 8, 9], 100, 100⟩⟩
     (by decide) (by decide) (by decide) (by decide) (by decide)
     (by decide) (by decide) (by decide) (by decide) (by decide)⟩

/-- A remote-call environment where the leader (node 1) and the only
follower (node 2) both fail with distinguishable `FailoverNode` errors. -/
def remoteAllFailover : Nat → Except CoordinatorError Unit := fun n =>
  if n = 1 then Except.error (CoordinatorError.failoverNode 1 "a")
  else if n = 2 then Except.error (CoordinatorError.failoverNode 2 "b")
  else Except.ok ()

/-- C1 counterexample: with leader node 1 and follower node 2 both failing
with `FailoverNode`, the writer returns the LEADER attempt's error
(`failoverNode 1 "a"`), not the last follower's error (`failoverNode 2 "b"`)
as the claim states: after the loop falls through, the function's final
expression is the outer `result` binding. -/
theorem c1_counterexample :
    write_to_replica_remote remoteAllFailover 1 [⟨11, 1⟩, ⟨12, 2⟩] =
      Except.error (CoordinatorError.failoverNode 1 "a") ∧
    write_to_replica_remote remoteAllFailover 1 [⟨11, 1⟩, ⟨12, 2⟩] ≠
      Except.error (CoordinatorError.failoverNode 2 "b") := by
  decide

theorem tryFollowers_all_failover (remote : Nat → Except CoordinatorError Unit)
    (leader_id : Nat) (vs : List VnodeInfo)
    (h : ∀ v ∈ vs, v.node_id ≠ leader_id →
      ∃ j s, remote v.node_id = Except.error (CoordinatorError.failoverNode j s)) :
    tryFollowers remote leader_id vs = Option.none := by
  induction vs with
  | nil => rfl
  | cons v rest ih =>
    have hrest : ∀ w ∈ rest, w.node_id ≠ leader_id →
        ∃ j s, remote w.node_id = Except.error (CoordinatorError.failoverNode j s) :=
      fun w hw => h w (by simp [hw])
    unfold tryFollowers
    by_cases hv : v.node_id = leader_id
    · simp only [hv, if_pos rfl]
      exact ih hrest
    · obtain ⟨j, s, hjs⟩ := h v (by simp) hv
      simp only [if_neg hv, hjs]
      exact ih hrest

theorem tryFollowers_first_ok (remote : Nat → Except CoordinatorError Unit)
    (leader_id : Nat) (pre : List VnodeInfo) (v : VnodeInfo) (post : List VnodeInfo)
    (hv : v.node_id ≠ leader_id) (hok : remote v.node_id = Except.ok ())
    (hpre : ∀ w ∈ pre, w.node_id ≠ leader_id →
      ∃ j s, remote w.node_id = Except.error (CoordinatorError.failoverNode j s)) :
    tryFollowers remote leader_id (pre ++ v :: post) = Option.some (Except.ok ()) := by
  induction pre with
  | nil =>
    unfold tryFollowers
    simp only [List.nil_append, if_neg hv, hok]
  | cons w rest ih =>
    have hrest : ∀ u ∈ rest, u.node_id ≠ leader_id →
        ∃ j s, remote u.node_id = Except.error (CoordinatorError.failoverNode j s) :=
      fun u hu => hpre u (by simp [hu])
    unfold tryFollowers
    by_cases hw : w.node_id = leader_id
    · simp only [List.cons_append, hw, if_pos rfl]
      exact ih hrest
    · obtain ⟨j, s, hjs⟩ := hpre w (by simp) hw
      simp only [List.cons_append, if_neg hw, hjs]
      exact ih hrest

theorem tryFollowers_first_other_error (remote : Nat → Except CoordinatorError Unit)
    (leader_id : Nat) (pre : List VnodeInfo) (v : VnodeInfo) (post : List VnodeInfo)
    (err : CoordinatorError)
    (hv : v.node_id ≠ leader_id) (herr : remote v.node_id = Except.error err)
    (hnf : ∀ j s, err ≠ CoordinatorError.failoverNode j s)
    (hpre : ∀ w ∈ pre, w.node_id ≠ leader_id →
      ∃ j s, remote w.node_id = Except.error (CoordinatorError.failoverNode j s)) :
    tryFollowers remote leader_id (pre ++ v :: post) =
      Option.some (Except.error err) := by
  induction pre with
  | nil =>
    unfold tryFollowers
    simp only [List.nil_append, if_neg hv, herr]
    cases err with
    | failoverNode j s => exact absurd rfl (hnf j s)
    | forwardToLeader a b => rfl
    | raftWriteError m => rfl
    | tskvError m => rfl
    | commonError m => rfl
  | cons w rest ih =>
    have hrest : ∀ u ∈ rest, u.node_id ≠ leader_id →
        ∃ j s, remote u.node_id = Except.error (CoordinatorError.failoverNode j s) :=
      fun u hu => hpre u (by simp [hu])
    unfold tryFollowers
    by_cases hw : w.node_id = leader_id
    · simp only [List.cons_append, hw, if_pos rfl]
      exact ih hrest
    · obtain ⟨j, s, hjs⟩ := hpre w (by simp) hw
      simp only [List.cons_append, if_neg hw, hjs]
      exact ih hrest

/-- C1 amended: for every write dispatched to a remote leader by
`RaftWriter::write_to_replica` whose remote call fails with `FailoverNode`,
the writer iterates the replica's vnodes excluding the current leader,
repeating the remote call for each: it returns `Ok` on the first success,
continues to the next vnode on `FailoverNode`, returns immediately on any
other error, and if all followers are exhausted it returns the LEADER
attempt's original `FailoverNode` error. -/
theorem c1_amended (remote : Nat → Except CoordinatorError Unit)
    (leader_id : Nat) (vnodes : List VnodeInfo) (i : Nat) (e : String)
    (hl : remote leader_id = Except.error (CoordinatorError.failoverNode i e)) :
    ((∀ v ∈ vnodes, v.node_id ≠ leader_id →
        ∃ j s, remote v.node_id = Except.error (CoordinatorError.failoverNode j s)) →
      write_to_replica_remote remote leader_id vnodes =
        Except.error (CoordinatorError.failoverNode i e)) ∧
    (∀ (pre : List VnodeInfo) (v : VnodeInfo) (post : List VnodeInfo),
      vnodes = pre ++ v :: post → v.node_id ≠ leader_id →
      remote v.node_id = Except.ok () →
      (∀ w ∈ pre, w.node_id ≠ leader_id →
        ∃ j s, remote w.node_id = Except.error (CoordinatorError.failoverNode j s)) →
      write_to_replica_remote remote leader_id vnodes = Except.ok ()) ∧
    (∀ (pre : List VnodeInfo) (v : VnodeInfo) (post : List VnodeInfo)
        (err : CoordinatorError),
      vnodes = pre ++ v :: post → v.node_id ≠ leader_id →
      remote v.node_id = Except.error err →
      (∀ j s, err ≠ CoordinatorError.failoverNode j s) →
      (∀ w ∈ pre, w.node_id ≠ leader_id →
        ∃ j s, remote w.node_id = Except.error (CoordinatorError.failoverNode j s)) →
      write_to_replica_remote remote leader_id vnodes = Except.error err) := by
  refine ⟨?_, ?_, ?_⟩
  · intro h
    unfold write_to_replica_remote
    rw [hl, tryFollowers_all_failover remote leader_id vnodes h]
  · intro pre v post hsplit hv hok hpre
    subst hsplit
    unfold write_to_replica_remote
    rw [hl, tryFollowers_first_ok remote leader_id pre v post hv hok hpre]
  · intro pre v post err hsplit hv herr hnf hpre
    subst hsplit
    unfold write_to_replica_remote
    rw [hl, tryFollowers_first_other_error remote leader_id pre v post err hv herr hnf hpre]

/-- A remote-call environment where the leader (node 1) fails with
`FailoverNode` and every other node accepts the write. -/
def remoteLeaderDown : Nat → Except CoordinatorError Unit := fun n =>
  if n = 1 then Except.error (CoordinatorError.failoverNode 1 "down")
  else Except.ok ()

theorem c1_witness :
    write_to_replica_remote remoteLeaderDown 1 [⟨12, 2⟩] = Except.ok () :=
  (c1_amended remoteLeaderDown 1 [⟨12, 2⟩] 1 "down" rfl).2.1 [] ⟨12, 2⟩ []
    rfl (by decide) rfl (fun w hw => absurd hw (List.not_mem_nil w))

/-- A chunk already holding column group 0 with time range `[1, 2]`. -/
def chunkWithCg0 : Chunk :=
  ((Chunk.new "t" 1).push ⟨0, 0, 0, ⟨1, 2⟩, []⟩).2

/-- C2 counterexample: pushing a second column group with the existing id 0
but time range `[3, 5]` returns `TsmColumnGroupError`, yet the chunk's
`time_range` is NOT left unchanged: the source merges `time_range` before the
duplicate-id check, widening `[1, 2]` to `[1, 5]`. -/
theorem c2_counterexample :
    ((chunkWithCg0.push ⟨0, 0, 0, ⟨3, 5⟩, []⟩).1 =
      Except.error (Error.tsmColumnGroupError
        "duplicate column group id: 0, failed push pages meta to tsm_meta")) ∧
    (chunkWithCg0.push ⟨0, 0, 0, ⟨3, 5⟩, []⟩).2.time_range ≠ chunkWithCg0.time_range ∧
    chunkWithCg0.time_range = ⟨1, 2⟩ ∧
    (chunkWithCg0.push ⟨0, 0, 0, ⟨3, 5⟩, []⟩).2.time_range = ⟨1, 5⟩ := by
  decide

/-- C2 amended: for every chunk `c` and column group `g` whose id already
exists in `c.column_groups`, `Chunk::push(c, g)` returns a
`TsmColumnGroupError`, and leaves `column_groups` and `next_column_group_id`
unchanged; `time_range`, however, is left unchanged only when the time-range
precondition already fails (`c.max_ts > g.min_ts`), and otherwise is widened
to `merge(c.time_range, g.time_range)` before the duplicate id is detected. -/
theorem c2_amended (c : Chunk) (g : ColumnGroup)
    (hdup : (cgLookup g.column_group_id c.column_groups).isSome = true) :
    (∃ r, (c.push g).1 = Except.error (Error.tsmColumnGroupError r)) ∧
    (c.push g).2.column_groups = c.column_groups ∧
    (c.push g).2.next_column_group_id = c.next_column_group_id ∧
    (c.push g).2.time_range =
      (if c.time_range.max_ts > g.time_range.min_ts then c.time_range
       else c.time_range.merge g.time_range) := by
  unfold Chunk.push
  by_cases htr : c.time_range.max_ts > g.time_range.min_ts
  · rw [if_pos htr]
    exact ⟨⟨_, rfl⟩, rfl, rfl, (if_pos htr).symm⟩
  · rw [if_neg htr, if_pos hdup]
    exact ⟨⟨_, rfl⟩, rfl, rfl, (if_neg htr).symm⟩

theorem c2_witness :
    (cgLookup 0 chunkWithCg0.column_groups).isSome = true ∧
    ((∃ r, (chunkWithCg0.push ⟨0, 0, 0, ⟨3, 5⟩, []⟩).1 =
        Except.error (Error.tsmColumnGroupError r)) ∧
      (chunkWithCg0.push ⟨0, 0, 0, ⟨3, 5⟩, []⟩).2.column_groups =
        chunkWithCg0.column_groups ∧
      (chunkWithCg0.push ⟨0, 0, 0, ⟨3, 5⟩, []⟩).2.next_column_group_id =
        chunkWithCg0.next_column_group_id ∧
      (chunkWithCg0.push ⟨0, 0, 0, ⟨3, 5⟩, []⟩).2.time_range =
        (if chunkWithCg0.time_range.max_ts > (⟨3, 5⟩ : TimeRange).min_ts
         then chunkWithCg0.time_range
         else chunkWithCg0.time_range.merge ⟨3, 5⟩)) :=
  ⟨by decide, c2_amended chunkWithCg0 ⟨0, 0, 0, ⟨3, 5⟩, []⟩ (by decide)⟩

/-- A page metadata value used by concrete column-group examples. -/
def pageMetaEx : PageMeta := ⟨0, ⟨0, "c", PhysicalCType.time TimeUnit.ns⟩⟩

/-- C7 counterexample: pushing a page at offset 0 with size 0 and then a page
at offset 5 triggers no debug assertion (both checks are skipped because
`size == 0`), yet the resulting pages are not contiguous and `pages_offset`
(captured by the `pages_offset == 0` sentinel on the SECOND push) differs
from the first page's offset. -/
theorem c7_counterexample :
    ((ColumnGroup.new 0).pushAll [⟨0, 0, pageMetaEx⟩, ⟨5, 3, pageMetaEx⟩]).2 = true ∧
    contiguousPages
      ((ColumnGroup.new 0).pushAll [⟨0, 0, pageMetaEx⟩, ⟨5, 3, pageMetaEx⟩]).1.pages = false ∧
    ((ColumnGroup.new 0).pushAll [⟨0, 0, pageMetaEx⟩, ⟨5, 3, pageMetaEx⟩]).1.pages_offset = 5 ∧
    (((ColumnGroup.new 0).pushAll
      [⟨0, 0, pageMetaEx⟩, ⟨5, 3, pageMetaEx⟩]).1.pages.head?.map fun p => p.offset) =
      Option.some 0 := by
  decide

theorem contiguousPages_concat (xs : List PageWriteSpec) (p : PageWriteSpec)
    (h : contiguousPages xs = true)
    (hlast : ∀ l, xs.getLast? = Option.some l → l.offset + l.size = p.offset) :
    contiguousPages (xs ++ [p]) = true := by
  induction xs with
  | nil => rfl
  | cons a rest ih =>
    cases rest with
    | nil =>
      have ha := hlast a rfl
      simp [contiguousPages, ha]
    | cons b rest2 =>
      have hadj : a.offset + a.size = b.offset := by
        simp [contiguousPages] at h
        exact h.1
      have hrest : contiguousPages (b :: rest2) = true := by
        simp [contiguousPages] at h ⊢
        exact h.2
      have hlast2 : ∀ l, (b :: rest2).getLast? = Option.some l →
          l.offset + l.size = p.offset := by
        intro l hl
        exact hlast l (by simpa using hl)
      have := ih hrest hlast2
      simp [contiguousPages] at this ⊢
      exact ⟨hadj, this⟩

theorem pushAll_go (ps : List PageWriteSpec) (g : ColumnGroup)
    (hsizes : ∀ p ∈ ps, p.size ≠ 0)
    (hne : g.pages_offset ≠ 0) (hsz : g.size ≠ 0)
    (hcontig : contiguousPages g.pages = true)
    (hlast : ∀ l, g.pages.getLast? = Option.some l →
      l.offset + l.size = g.pages_offset + g.size)
    (hok : (g.pushAll ps).2 = true) :
    contiguousPages (g.pushAll ps).1.pages = true ∧
    (g.pushAll ps).1.pages_offset = g.pages_offset ∧
    (g.pushAll ps).1.size = g.size + pagesSizeSum ps ∧
    (g.pushAll ps).1.pages = g.pages ++ ps ∧
    (∀ l, (g.pushAll ps).1.pages.getLast? = Option.some l →
      l.offset + l.size = (g.pushAll ps).1.pages_offset + (g.pushAll ps).1.size) := by
  induction ps generalizing g with
  | nil =>
    refine ⟨hcontig, rfl, by simp [ColumnGroup.pushAll, pagesSizeSum], by simp [ColumnGroup.pushAll], ?_⟩
    exact hlast
  | cons p ps ih =>
    have hpush : g.push p =
        ({ g with
            pages_offset := g.pages_offset
            size := g.size + p.size
            pages := g.pages ++ [p] },
          decide (g.pages_offset + g.size = p.offset)) := by
      simp [ColumnGroup.push, hne, hsz]
    have hok2 : (g.push p).2 = true ∧ ((g.push p).1.pushAll ps).2 = true := by
      have hh : (g.pushAll (p :: ps)).2 = ((g.push p).2 && ((g.push p).1.pushAll ps).2) := rfl
      rw [hh] at hok
      exact Bool.and_eq_true_iff.mp hok
    have heq : g.pages_offset + g.size = p.offset := by
      have hb := hok2.1
      rw [hpush] at hb
      simpa using hb
    set g1 : ColumnGroup :=
      { g with
        pages_offset := g.pages_offset
        size := g.size + p.size
        pages := g.pages ++ [p] } with hg1
    have hfst : (g.push p).1 = g1 := by rw [hpush]
    have hall1 : (g.pushAll (p :: ps)).1 = (g1.pushAll ps).1 := by
      show ((g.push p).1.pushAll ps).1 = (g1.pushAll ps).1
      rw [hfst]
    have hokrec : (g1.pushAll ps).2 = true := by
      rw [← hfst]
      exact hok2.2
    have hsizes1 : ∀ q ∈ ps, q.size ≠ 0 := fun q hq => hsizes q (by simp [hq])
    have hne1 : g1.pages_offset ≠ 0 := hne
    have hsz1 : g1.size ≠ 0 := by
      show g.size + p.size ≠ 0
      omega
    have hcontig1 : contiguousPages g1.pages = true := by
      show contiguousPages (g.pages ++ [p]) = true
      refine contiguousPages_concat g.pages p hcontig ?_
      intro l hl
      rw [hlast l hl, heq]
    have hlast1 : ∀ l, g1.pages.getLast? = Option.some l →
        l.offset + l.size = g1.pages_offset + g1.size := by
      intro l hl
      have hgl : g1.pages.getLast? = Option.some p := by
        show (g.pages ++ [p]).getLast? = Option.some p
        simp [List.getLast?_append]
      rw [hgl] at hl
      have hlp : p = l := Option.some.inj hl
      rw [← hlp]
      show p.offset + p.size = g.pages_offset + (g.size + p.size)
      omega
    obtain ⟨r1, r2, r3, r4, r5⟩ := ih g1 hsizes1 hne1 hsz1 hcontig1 hlast1 hokrec
    refine ⟨?_, ?_, ?_, ?_, ?_⟩
    · rw [hall1]
      exact r1
    · rw [hall1, r2]
    · rw [hall1, r3]
      show g.size + p.size + pagesSizeSum ps = g.size + pagesSizeSum (p :: ps)
      have hsum : pagesSizeSum (p :: ps) = p.size + pagesSizeSum ps := rfl
      omega
    · rw [hall1, r4]
      show (g.pages ++ [p]) ++ ps = g.pages ++ p :: ps
      simp
    · intro l hl
      rw [hall1] at hl ⊢
      have h5 := r5 l hl
      exact h5

/-- C7 amended: for every column group built by a sequence of
`ColumnGroup::push` calls from `new`, PROVIDED every pushed page has nonzero
size and the first pushed page has nonzero offset, and every push passes the
contiguity debug assertion, the pushed pages are physically contiguous (for
every adjacent pair `prev.offset + prev.size == next.offset`) and
`pages_offset` equals the first page's offset; `push` unconditionally updates
the group's size by the pushed page's size. -/
theorem c7_amended (id : Nat) (ps : List PageWriteSpec)
    (hsizes : ∀ p ∈ ps, p.size ≠ 0)
    (hhead : ∀ p, ps.head? = Option.some p → p.offset ≠ 0)
    (hok : ((ColumnGroup.new id).pushAll ps).2 = true) :
    contiguousPages ((ColumnGroup.new id).pushAll ps).1.pages = true ∧
    ((ColumnGroup.new id).pushAll ps).1.pages = ps ∧
    (∀ p, ps.head? = Option.some p →
      ((ColumnGroup.new id).pushAll ps).1.pages_offset = p.offset) ∧
    ((ColumnGroup.new id).pushAll ps).1.size = pagesSizeSum ps ∧
    (∀ (g : ColumnGroup) (q : PageWriteSpec), ((g.push q).1).size = g.size + q.size) := by
  cases ps with
  | nil =>
    refine ⟨rfl, rfl, ?_, rfl, fun g q => rfl⟩
    intro p hp
    simp at hp
  | cons p ps2 =>
    have hpush0 : (ColumnGroup.new id).push p =
        (⟨id, p.offset, p.size, TimeRange.noneRange, [p]⟩, true) := by
      simp [ColumnGroup.push, ColumnGroup.new]
    set g1 : ColumnGroup := ⟨id, p.offset, p.size, TimeRange.noneRange, [p]⟩ with hg1
    have hall1 : ((ColumnGroup.new id).pushAll (p :: ps2)).1 = (g1.pushAll ps2).1 := by
      show (((ColumnGroup.new id).push p).1.pushAll ps2).1 = (g1.pushAll ps2).1
      rw [hpush0]
    have hokrec : (g1.pushAll ps2).2 = true := by
      have hh : ((ColumnGroup.new id).pushAll (p :: ps2)).2 =
          (((ColumnGroup.new id).push p).2 &&
            (((ColumnGroup.new id).push p).1.pushAll ps2).2) := rfl
      rw [hh, hpush0] at hok
      simpa using hok
    have hsizes1 : ∀ q ∈ ps2, q.size ≠ 0 := fun q hq => hsizes q (by simp [hq])
    have hne1 : g1.pages_offset ≠ 0 := hhead p rfl
    have hsz1 : g1.size ≠ 0 := hsizes p (by simp)
    have hcontig1 : contiguousPages g1.pages = true := rfl
    have hlast1 : ∀ l, g1.pages.getLast? = Option.some l →
        l.offset + l.size = g1.pages_offset + g1.size := by
      intro l hl
      have hlp : p = l := Option.some.inj hl
      rw [← hlp]
    obtain ⟨r1, r2, r3, r4, r5⟩ := pushAll_go ps2 g1 hsizes1 hne1 hsz1 hcontig1 hlast1 hokrec
    refine ⟨?_, ?_, ?_, ?_, fun g q => rfl⟩
    · rw [hall1]
      exact r1
    · rw [hall1, r4]
      rfl
    · intro q hq
      have hpq : p = q := Option.some.inj hq
      rw [hall1, r2, ← hpq]
    · rw [hall1, r3]
      show p.size + pagesSizeSum ps2 = pagesSizeSum (p :: ps2)
      rfl

theorem c7_witness :
    contiguousPages ((ColumnGroup.new 1).pushAll
      [⟨4, 2, pageMetaEx⟩, ⟨6, 3, pageMetaEx⟩]).1.pages = true ∧
    ((ColumnGroup.new 1).pushAll [⟨4, 2, pageMetaEx⟩, ⟨6, 3, pageMetaEx⟩]).1.pages =
      [⟨4, 2, pageMetaEx⟩, ⟨6, 3, pageMetaEx⟩] ∧
    (∀ p, ([⟨4, 2, pageMetaEx⟩, ⟨6, 3, pageMetaEx⟩] :
        List PageWriteSpec).head? = Option.some p →
      ((ColumnGroup.new 1).pushAll
        [⟨4, 2, pageMetaEx⟩, ⟨6, 3, pageMetaEx⟩]).1.pages_offset = p.offset) ∧
    ((ColumnGroup.new 1).pushAll [⟨4, 2, pageMetaEx⟩, ⟨6, 3, pageMetaEx⟩]).1.size =
      pagesSizeSum [⟨4, 2, pageMetaEx⟩, ⟨6, 3, pageMetaEx⟩] ∧
    (∀ (g : ColumnGroup) (q : PageWriteSpec), ((g.push q).1).size = g.size + q.size) :=
  c7_amended 1 [⟨4, 2, pageMetaEx⟩, ⟨6, 3, pageMetaEx⟩]
    (by decide)
    (fun p hp => by
      rw [← Option.some.inj hp]
      decide)
    (by decide)

end CnosDB
